import Mathlib

/-!
Verification of the metronome core of rap-trainer-pro (`src/app.py`).

The program's algorithmic core is `RapTrainerApp.generate_metronome`
(src/app.py lines 70-107): it builds a click track at a given tempo by
walking beats through a fixed-length sample buffer, mixing a short sine
burst at each non-silent beat, and quantizing the result to 16-bit PCM.

Shallow embedding conventions:
  * Python floats are modelled as exact rationals (for the integer-valued
    scheduling arithmetic) and exact reals (for the waveform).
  * `int(x)` (Python truncation toward zero) is `ratTrunc`.
  * The `while` loop is embedded fuel-based: `loopGo` returns `none` when
    the fuel is exhausted while the loop guard still holds; the fuel
    `totalNat dur` is proved sufficient whenever `samples_per_beat ≥ 1`
    (`loopGo_eq`), and `loopGo_zero_spb` shows a non-advancing loop fails
    for every fuel, so `none`-for-all-fuel faithfully models divergence.
  * The outcome of a call is a `PyResult`: normal return, a raised Python
    exception (by class name), or divergence.
-/

namespace RapTrainer

/-- Click kind: `high_click` (strong beat, 1200 Hz) or `low_click`
(weak beat, 800 Hz) in `generate_metronome`. -/
inductive Kind where
  | accent : Kind
  | normal : Kind
deriving DecidableEq

/-- One iteration of the scheduling loop of `generate_metronome`, recording
the state the iteration saw (`sampleOffset` = `current_sample`, `beatIdx` =
`beat_count`, `barCount` = `bar_count`), the click the iteration would pick
(`high_click if beat_count % 4 == 0 else low_click`), whether the beat was
scheduled (`not is_ghost_bar`, line 94) and whether the click was actually
written into the buffer
(`current_sample + len(click) < total_samples`, line 96). -/
structure Ev where
  sampleOffset : Nat
  beatIdx : Nat
  barCount : Nat
  kind : Kind
  scheduled : Bool
  written : Bool
deriving DecidableEq

/-- Outcome of running a Python call: normal value, raised exception
(identified by its class name), or divergence (an infinite loop). -/
inductive PyResult (α : Type) where
  | ok : α → PyResult α
  | exn : String → PyResult α
  | diverge : PyResult α
deriving DecidableEq

/-- Python `int(q)`: truncation toward zero. -/
def ratTrunc (q : ℚ) : ℤ :=
  if 0 ≤ q then ⌊q⌋ else -⌊-q⌋

/-- `sample_rate = 44100` (src/app.py line 71). -/
def sample_rate : ℚ := 44100

/-- `int(sample_rate * duration_sec)`: the length of `t` and hence of
`audio_track` (src/app.py line 72), as an integer (possibly negative for
negative durations, in which case `np.linspace` raises `ValueError`). -/
def totalSamplesZ (dur : ℚ) : ℤ := ratTrunc (sample_rate * dur)

/-- `samples_per_beat = int(sample_rate * beat_interval)` with
`beat_interval = 60.0 / bpm` (src/app.py lines 75-76). -/
def samplesPerBeatZ (bpm : ℚ) : ℤ := ratTrunc (sample_rate * (60 / bpm))

/-- The buffer length as a natural number (meaningful when `dur ≥ 0`). -/
def totalNat (dur : ℚ) : ℕ := (totalSamplesZ dur).toNat

/-- `samples_per_beat` as a natural number (meaningful when it is
positive; when it is `≤ 0` the Python loop never terminates and the
embedding reports divergence before using this value). -/
def spbNat (bpm : ℚ) : ℕ := (samplesPerBeatZ bpm).toNat

/-- Number of samples of `make_click(freq, dur)`:
`int(sample_rate * dur)` (src/app.py line 80). -/
def clickCount (dur : ℚ) : ℕ := (ratTrunc (sample_rate * dur)).toNat

/-- Length of both click presets:
`len(high_click) = len(low_click) = int(44100 * 0.05) = 2205`. -/
def clickLen : ℕ := clickCount (1 / 20)

/-- The scheduling `while` loop of `generate_metronome` (src/app.py lines
90-102), fuel-based.  Parameters: `clen = len(click)`,
`spb = samples_per_beat`, `total = total_samples`; state:
`cs = current_sample`, `b = beat_count`, `bar = bar_count`.  Returns the
transcript of the iterations, or `none` if the fuel ran out while
`current_sample < total_samples` still held. -/
def loopGo (ghost : Bool) (clen spb total : ℕ) :
    ℕ → ℕ → ℕ → ℕ → Option (List Ev)
  | fuel, cs, b, bar =>
    if cs < total then
      match fuel with
      | 0 => none
      | fuel' + 1 =>
        (loopGo ghost clen spb total fuel' (cs + spb) (b + 1)
            (if (b + 1) % 4 == 0 then bar + 1 else bar)).map
          (fun rest =>
            ⟨cs, b, bar, if b % 4 == 0 then .accent else .normal,
              !(ghost && bar % 4 == 0),
              (!(ghost && bar % 4 == 0)) && decide (cs + clen < total)⟩ :: rest)
    else some []

/-- `generate_metronome(bpm, duration_sec, ghost_mode)` up to rendering:
the scheduling part, returning the loop transcript.  Mirrors the source
order of effects: `np.linspace` raises `ValueError` when
`int(sample_rate * duration_sec) < 0` (line 72) before `60.0 / bpm`
raises `ZeroDivisionError` for `bpm = 0` (line 75); when
`samples_per_beat ≤ 0` and the buffer is non-empty, `current_sample`
never increases past `0`, so the loop diverges (`loopGo_zero_spb`). -/
def schedule (bpm dur : ℚ) (ghost : Bool) : PyResult (List Ev) :=
  if totalSamplesZ dur < 0 then .exn "ValueError"
  else if bpm = 0 then .exn "ZeroDivisionError"
  else if 0 < totalNat dur ∧ samplesPerBeatZ bpm ≤ 0 then .diverge
  else
    match loopGo ghost clickLen (spbNat bpm) (totalNat dur)
        (totalNat dur) 0 0 1 with
    | some evs => .ok evs
    | none => .diverge

/-- The loop transcript of a successful call (`[]` otherwise). -/
def evsOf (bpm dur : ℚ) (ghost : Bool) : List Ev :=
  match schedule bpm dur ghost with
  | .ok evs => evs
  | _ => []

/-- Number of loop iterations: the count of beats `b` with
`b * spb < total`. -/
def numBeats (spb total : ℕ) : ℕ := (total + spb - 1) / spb

/-- Closed form of the `b`-th iteration record of the loop. -/
def beatEv (ghost : Bool) (clen spb total b : ℕ) : Ev :=
  ⟨b * spb, b, b / 4 + 1, if b % 4 == 0 then .accent else .normal,
    !(ghost && (b / 4 + 1) % 4 == 0),
    (!(ghost && (b / 4 + 1) % 4 == 0)) && decide (b * spb + clen < total)⟩

/-- The full closed-form transcript. -/
def beatList (ghost : Bool) (clen spb total : ℕ) : List Ev :=
  (List.range (numBeats spb total)).map (beatEv ghost clen spb total)

/-- The sample offsets of a transcript. -/
def offsets (evs : List Ev) : List ℕ := evs.map (fun e => e.sampleOffset)

/-- `make_click(freq, dur=0.05)` (src/app.py lines 79-80): sample `i` of
`0.5 * np.sin(2 * np.pi * freq * np.linspace(0, dur, int(sample_rate * dur)))`.
`np.linspace` includes the endpoint by default, so the sample points are
`i * dur / (n - 1)` with `n = int(sample_rate * dur)` — not
`i / sample_rate`. -/
noncomputable def make_click (freq : ℝ) (dur : ℚ) (i : ℕ) : ℝ :=
  1 / 2 * Real.sin (2 * Real.pi * freq *
    ((i : ℝ) * (dur : ℝ) / ((clickCount dur - 1 : ℕ) : ℝ)))

/-- The preset frequency for each click kind:
`high_click = make_click(1200)`, `low_click = make_click(800)`
(src/app.py lines 82-83). -/
noncomputable def Kind.freq : Kind → ℝ
  | .accent => 1200
  | .normal => 800

/-- The waveform mixed for an event of the given kind. -/
noncomputable def clickWave (k : Kind) (i : ℕ) : ℝ :=
  make_click (Kind.freq k) (1 / 20) i

/-- Additive mixing of the written clicks into the zero-initialized
buffer (src/app.py lines 73 and 96-97): the value of `audio_track[j]`
after the scheduling loop finishes. -/
noncomputable def mixBuf (evs : List Ev) (j : ℕ) : ℝ :=
  (evs.map (fun e =>
    if e.written = true ∧ e.sampleOffset ≤ j ∧ j < e.sampleOffset + clickLen
    then clickWave e.kind (j - e.sampleOffset) else 0)).sum

/-- Truncation of a real toward zero: the behavior of C float-to-integer
conversion, which `np.int16` applies to a float value. -/
noncomputable def truncR (x : ℝ) : ℤ := if 0 ≤ x then ⌊x⌋ else -⌊-x⌋

/-- Wrap an integer into the signed 16-bit range `[-32768, 32767]`
(two's-complement wraparound, numpy's behavior for out-of-range
values). -/
def wrap16 (n : ℤ) : ℤ := (n + 32768) % 65536 - 32768

/-- `np.int16(x)` for a float `x`: truncate toward zero, wrap to
16 bits. -/
noncomputable def np_int16 (x : ℝ) : ℤ := wrap16 (truncR x)

/-- Sample `j` of the quantized track
`audio_track = np.int16(audio_track * 32767)` (src/app.py line 104). -/
noncomputable def pcmSample (evs : List Ev) (j : ℕ) : ℤ :=
  np_int16 (mixBuf evs j * 32767)

/-- The 16-bit PCM payload handed to `scipy.io.wavfile.write`
(src/app.py lines 104-106); the emitted WAV bytes are a fixed function
of this list and the constant sample rate. -/
noncomputable def pcmList (evs : List Ev) (total : ℕ) : List ℤ :=
  (List.range total).map (pcmSample evs)

/-- Modelled from the spec: the claimed click-synthesis formula
`sample[i] = 0.5 * sin(2π * frequencyHz * i / sampleRate)` (spec §4.1),
stated for comparison with the source's `make_click`. -/
noncomputable def synthSpecSample (freq : ℝ) (i : ℕ) : ℝ :=
  1 / 2 * Real.sin (2 * Real.pi * freq * (i : ℝ) / 44100)

/-- Modelled from the spec: the claimed quantization
`q = round(clamp(sample, -1, 1) * 32767)` (spec §4.3), stated for
comparison with the source's `np.int16(sample * 32767)`. -/
noncomputable def quantizeSpec (x : ℝ) : ℤ :=
  round (max (-1 : ℝ) (min x 1) * 32767)

/-- Modelled from the spec: the claimed clipped renderer (spec §4.3),
which mixes every scheduled event, clipping the write to
`min(clickLength, totalSamples - sampleOffset)` samples (the waveform
itself is the source's).  Stated for comparison with the source's
`mixBuf`. -/
noncomputable def mixBufSpec (evs : List Ev) (total j : ℕ) : ℝ :=
  (evs.map (fun e =>
    if e.scheduled = true ∧ e.sampleOffset ≤ j ∧
        j < e.sampleOffset + min clickLen (total - e.sampleOffset)
    then clickWave e.kind (j - e.sampleOffset) else 0)).sum

/-- `calculate_sps(bpm, subdivision=4)` (src/app.py lines 67-68). -/
def calculate_sps (bpm subdivision : ℚ) : ℚ := bpm * subdivision / 60

/-- One practice log entry (src/app.py lines 109-117); the timestamp is
abstracted to a number. -/
structure PracticeEntry where
  date : ℕ
  bpm : ℚ
  sps : ℚ
  focus : String
  duration : ℚ
deriving DecidableEq

/-- The app's only mutable state: `st.session_state.history`. -/
structure AppState where
  history : List PracticeEntry
deriving DecidableEq

/-- User-triggered operations: pressing the generate button
(src/app.py lines 154-156) or logging a session via `add_log`
(lines 109-117 and 166-169). -/
inductive AppOp where
  | gen : ℚ → ℚ → Bool → AppOp
  | logEntry : ℕ → ℚ → String → ℚ → AppOp

/-- One step of the app: `gen` calls `generate_metronome`, which reads
and writes no session state; `logEntry` appends to the history. -/
def appStep (s : AppState) : AppOp → AppState × Option (PyResult (List Ev))
  | .gen bpm dur ghost => (s, some (schedule bpm dur ghost))
  | .logEntry now bpm focus dur =>
      (⟨s.history ++ [⟨now, bpm, calculate_sps bpm 4, focus, dur⟩]⟩, none)

/-- Run a sequence of operations from a state, collecting the generated
audio outputs in order. -/
def appRun (s : AppState) : List AppOp → AppState × List (PyResult (List Ev))
  | [] => (s, [])
  | op :: ops =>
    ((appRun (appStep s op).1 ops).1,
      match (appStep s op).2 with
      | some o => o :: (appRun (appStep s op).1 ops).2
      | none => (appRun (appStep s op).1 ops).2)

/-! ### Basic evaluations of the rational-arithmetic layer -/

theorem ratTrunc_of_nonneg {q : ℚ} (h : 0 ≤ q) : ratTrunc q = ⌊q⌋ := by
  rw [ratTrunc, if_pos h]

theorem clickLen_eq : clickLen = 2205 := by
  rw [clickLen, clickCount, sample_rate, ratTrunc_of_nonneg (by norm_num)]
  norm_num
  rfl

theorem spbNat_eq_floor {bpm : ℚ} (h : 0 < bpm) :
    samplesPerBeatZ bpm = ⌊(2646000 : ℚ) / bpm⌋ := by
  rw [samplesPerBeatZ, sample_rate, ratTrunc_of_nonneg (by positivity),
    show (44100 : ℚ) * (60 / bpm) = 2646000 / bpm from by ring]

theorem one_le_spbZ {bpm : ℚ} (h0 : 0 < bpm) (h1 : bpm ≤ 2646000) :
    1 ≤ samplesPerBeatZ bpm := by
  rw [spbNat_eq_floor h0]
  exact Int.le_floor.2 (by rw [le_div_iff₀ h0]; simpa using h1)

theorem spbZ_nonpos {bpm : ℚ} (h : bpm < 0) : samplesPerBeatZ bpm ≤ 0 := by
  have hq : sample_rate * (60 / bpm) < 0 := by
    rw [sample_rate]
    apply mul_neg_of_pos_of_neg (by norm_num)
    exact div_neg_of_pos_of_neg (by norm_num) h
  rw [samplesPerBeatZ, ratTrunc, if_neg (by linarith)]
  have : (0 : ℤ) ≤ ⌊-(sample_rate * (60 / bpm))⌋ :=
    Int.le_floor.2 (by push_cast; linarith)
  omega

theorem totalZ_nonneg {dur : ℚ} (h : 0 ≤ dur) : 0 ≤ totalSamplesZ dur := by
  rw [totalSamplesZ, ratTrunc_of_nonneg (by rw [sample_rate]; positivity)]
  apply Int.le_floor.2
  rw [sample_rate]
  push_cast
  positivity

/-! ### Closed form of the scheduling loop -/

theorem lt_numBeats {spb total : ℕ} (hs : 1 ≤ spb) (b : ℕ) :
    b < numBeats spb total ↔ b * spb < total := by
  rw [numBeats, Nat.lt_iff_add_one_le, Nat.le_div_iff_mul_le hs]
  have hx : (b + 1) * spb = b * spb + spb := by ring
  rw [hx]
  generalize b * spb = x
  omega

theorem bar_step (b bar : ℕ) (hbar : bar = b / 4 + 1) :
    (if (b + 1) % 4 == 0 then bar + 1 else bar) = (b + 1) / 4 + 1 := by
  subst hbar
  by_cases h : (b + 1) % 4 = 0
  · simp only [h, beq_self_eq_true, if_true]
    omega
  · rw [if_neg (by simpa using h)]
    omega

/-- A loop that does not advance `current_sample` runs out of any fuel:
this justifies reporting divergence when `samples_per_beat ≤ 0` and the
buffer is non-empty. -/
theorem loopGo_zero_spb (ghost : Bool) (clen total : ℕ) (ht : 0 < total) :
    ∀ fuel b bar, loopGo ghost clen 0 total fuel 0 b bar = none := by
  intro fuel
  induction fuel with
  | zero => intro b bar; simp only [loopGo, if_pos ht]
  | succ fuel ih =>
    intro b bar
    simp only [loopGo, if_pos ht]
    rw [ih]
    rfl

/-- Closed form of the scheduling loop: starting from beat `b` in the
invariant state (`current_sample = b * spb`, `bar_count = b / 4 + 1`),
with enough fuel, the loop terminates and its transcript is the list of
`beatEv` records for the remaining beats. -/
theorem loopGo_eq (ghost : Bool) (clen spb total : ℕ) (hs : 1 ≤ spb) :
    ∀ fuel b, total ≤ b * spb + fuel →
      loopGo ghost clen spb total fuel (b * spb) b (b / 4 + 1) =
        some ((List.range' b (numBeats spb total - b)).map
          (beatEv ghost clen spb total)) := by
  intro fuel
  induction fuel with
  | zero =>
    intro b h
    have hnb : numBeats spb total - b = 0 := by
      have h5 : ¬ b < numBeats spb total := by
        rw [lt_numBeats hs b]; omega
      omega
    simp only [loopGo, if_neg (by omega : ¬ b * spb < total), hnb,
      List.range'_zero, List.map_nil]
  | succ fuel ih =>
    intro b h
    by_cases hlt : b * spb < total
    · have hb : b < numBeats spb total := (lt_numBeats hs b).2 hlt
      have hx : b * spb + spb = (b + 1) * spb := by ring
      have h2 : total ≤ (b + 1) * spb + fuel := by
        rw [← hx]; omega
      simp only [loopGo, if_pos hlt]
      rw [bar_step b (b / 4 + 1) rfl, hx, ih (b + 1) h2]
      rw [show numBeats spb total - b = (numBeats spb total - (b + 1)) + 1
        from by omega]
      rw [List.range'_succ, List.map_cons, Option.map_some']
      rfl
    · have hnb : numBeats spb total - b = 0 := by
        have h5 : ¬ b < numBeats spb total := by
          rw [lt_numBeats hs b]; omega
        omega
      simp only [loopGo, if_neg hlt, hnb, List.range'_zero, List.map_nil]

/-- A successful `schedule` call returns exactly the closed-form
transcript. -/
theorem schedule_ok_inv {bpm dur : ℚ} {ghost : Bool} {evs : List Ev}
    (h : schedule bpm dur ghost = .ok evs) :
    evs = beatList ghost clickLen (spbNat bpm) (totalNat dur) ∧
      (0 < totalNat dur → 1 ≤ spbNat bpm) := by
  rw [schedule] at h
  split_ifs at h with h1 h2 h3
  by_cases ht : totalNat dur = 0
  · rw [ht] at h ⊢
    simp only [loopGo, if_neg (by omega : ¬ (0 : ℕ) < 0)] at h
    cases h
    refine ⟨?_, by omega⟩
    have hnb : numBeats (spbNat bpm) 0 = 0 := by
      rw [numBeats]
      rcases Nat.eq_zero_or_pos (spbNat bpm) with h4 | h4
      · simp [h4]
      · apply Nat.div_eq_of_lt; omega
    rw [beatList, hnb]
    rfl
  · have hsp : 1 ≤ samplesPerBeatZ bpm := by
      rcases not_and_or.1 h3 with h4 | h4
      · omega
      · omega
    have hspn : 1 ≤ spbNat bpm := by
      rw [spbNat]; omega
    have hcf := loopGo_eq ghost clickLen (spbNat bpm) (totalNat dur) hspn
      (totalNat dur) 0 (by omega)
    simp only [Nat.zero_mul, Nat.zero_div, Nat.zero_add] at hcf
    rw [hcf] at h
    cases h
    refine ⟨?_, fun _ => hspn⟩
    rw [beatList, List.range_eq_range']
    simp

/-- Conversely, under the standing validity conditions `schedule`
succeeds with the closed-form transcript. -/
theorem schedule_ok {bpm dur : ℚ} (ghost : Bool)
    (hd : 0 ≤ totalSamplesZ dur) (hb : bpm ≠ 0)
    (hs : 1 ≤ samplesPerBeatZ bpm) :
    schedule bpm dur ghost =
      .ok (beatList ghost clickLen (spbNat bpm) (totalNat dur)) := by
  have hspn : 1 ≤ spbNat bpm := by rw [spbNat]; omega
  rw [schedule, if_neg (by omega), if_neg hb,
    if_neg (by rintro ⟨-, h4⟩; omega)]
  have := loopGo_eq ghost clickLen (spbNat bpm) (totalNat dur) hspn
    (totalNat dur) 0 (by omega)
  simp only [Nat.zero_mul, Nat.zero_div, Nat.zero_add] at this
  rw [this, beatList, List.range_eq_range']
  simp

/-! ### Concrete evaluations -/

theorem totalNat_0 : totalNat 0 = 0 := by
  rw [totalNat, totalSamplesZ, sample_rate, ratTrunc_of_nonneg (by norm_num)]
  norm_num

theorem totalNat_1 : totalNat 1 = 44100 := by
  rw [totalNat, totalSamplesZ, sample_rate, ratTrunc_of_nonneg (by norm_num)]
  norm_num
  rfl

theorem totalNat_2 : totalNat 2 = 88200 := by
  rw [totalNat, totalSamplesZ, sample_rate, ratTrunc_of_nonneg (by norm_num)]
  norm_num
  rfl

theorem spbZ_120 : samplesPerBeatZ 120 = 22050 := by
  rw [samplesPerBeatZ, sample_rate, ratTrunc_of_nonneg (by norm_num)]
  norm_num

theorem spbNat_120 : spbNat 120 = 22050 := by
  rw [spbNat, spbZ_120]
  rfl

theorem spbZ_63 : samplesPerBeatZ 63 = 42000 := by
  rw [samplesPerBeatZ, sample_rate, ratTrunc_of_nonneg (by norm_num)]
  rw [show (44100 : ℚ) * (60 / 63) = 42000 from by norm_num]
  norm_num

theorem spbZ_1200 : samplesPerBeatZ 1200 = 2205 := by
  rw [samplesPerBeatZ, sample_rate, ratTrunc_of_nonneg (by norm_num)]
  rw [show (44100 : ℚ) * (60 / 1200) = 2205 from by norm_num]
  norm_num

theorem spbZ_2646001 : samplesPerBeatZ 2646001 = 0 := by
  rw [samplesPerBeatZ, sample_rate, ratTrunc_of_nonneg (by positivity)]
  rw [show (44100 : ℚ) * (60 / 2646001) = 2646000 / 2646001 from by ring]
  rw [Int.floor_eq_iff]
  constructor
  · norm_num
  · norm_num

theorem sched_120_2 : schedule 120 2 false = .ok
    [⟨0, 0, 1, .accent, true, true⟩, ⟨22050, 1, 1, .normal, true, true⟩,
     ⟨44100, 2, 1, .normal, true, true⟩,
     ⟨66150, 3, 1, .normal, true, true⟩] := by
  rw [schedule,
    if_neg (by
      rw [totalSamplesZ, sample_rate, ratTrunc_of_nonneg (by norm_num)]
      norm_num),
    if_neg (by norm_num), if_neg (by rw [spbZ_120]; omega)]
  rw [spbNat, spbZ_120, totalNat_2, clickLen_eq]
  decide

theorem sched_120_1 : schedule 120 1 false = .ok
    [⟨0, 0, 1, .accent, true, true⟩,
     ⟨22050, 1, 1, .normal, true, true⟩] := by
  rw [schedule,
    if_neg (by
      rw [totalSamplesZ, sample_rate, ratTrunc_of_nonneg (by norm_num)]
      norm_num),
    if_neg (by norm_num), if_neg (by rw [spbZ_120]; omega)]
  rw [spbNat, spbZ_120, totalNat_1, clickLen_eq]
  decide

theorem sched_63_1 : schedule 63 1 false = .ok
    [⟨0, 0, 1, .accent, true, true⟩,
     ⟨42000, 1, 1, .normal, true, false⟩] := by
  rw [schedule,
    if_neg (by
      rw [totalSamplesZ, sample_rate, ratTrunc_of_nonneg (by norm_num)]
      norm_num),
    if_neg (by norm_num), if_neg (by rw [spbZ_63]; omega)]
  rw [spbNat, spbZ_63, totalNat_1, clickLen_eq]
  decide

theorem sched_120_0 : schedule 120 0 false = .ok [] := by
  rw [schedule,
    if_neg (by
      rw [totalSamplesZ, sample_rate, ratTrunc_of_nonneg (by norm_num)]
      norm_num),
    if_neg (by norm_num), if_neg (by rw [totalNat_0]; omega)]
  rw [totalNat_0]
  decide

theorem sched_2646001_1 : schedule 2646001 1 false = .diverge := by
  rw [schedule,
    if_neg (by
      rw [totalSamplesZ, sample_rate, ratTrunc_of_nonneg (by norm_num)]
      norm_num),
    if_neg (by norm_num),
    if_pos ⟨by rw [totalNat_1]; omega, by rw [spbZ_2646001]⟩]

/-! ### Counting helpers -/

theorem countP_range_of_le_lo (p : ℕ → Bool) (lo : ℕ)
    (hp : ∀ b, p b = true → lo ≤ b) :
    ∀ n, n ≤ lo → (List.range n).countP p = 0 := by
  intro n
  induction n with
  | zero => intro _; rfl
  | succ n ih =>
    intro h
    rw [List.range_succ, List.countP_append, ih (by omega)]
    have hpn : ¬ p n = true := fun hc => by have := hp n hc; omega
    simp [List.countP_cons, hpn]

theorem countP_range_of_le_hi (p : ℕ → Bool) (lo hi : ℕ)
    (hp : ∀ b, p b = true ↔ (lo ≤ b ∧ b < hi)) :
    ∀ n, lo ≤ n → n ≤ hi → (List.range n).countP p = n - lo := by
  intro n
  induction n with
  | zero => intro _ _; rw [List.range_zero]; simp
  | succ n ih =>
    intro h1 h2
    rw [List.range_succ, List.countP_append]
    by_cases hlo : lo ≤ n
    · rw [ih hlo (by omega)]
      have hpn : p n = true := (hp n).2 ⟨hlo, by omega⟩
      simp only [List.countP_cons, List.countP_nil, hpn, if_pos]
      omega
    · have hlo2 : n + 1 = lo := by omega
      rw [countP_range_of_le_lo p lo (fun b hb => ((hp b).1 hb).1) n (by omega)]
      have hpn : ¬ p n = true := fun hc => by
        have := ((hp n).1 hc).1; omega
      simp [List.countP_cons, hpn]
      omega

theorem countP_range_interval (p : ℕ → Bool) (lo hi : ℕ) (hlh : lo ≤ hi)
    (hp : ∀ b, p b = true ↔ (lo ≤ b ∧ b < hi)) :
    ∀ n, hi ≤ n → (List.range n).countP p = hi - lo := by
  intro n
  induction n with
  | zero =>
    intro h
    have h4 : hi = 0 := by omega
    have h5 : lo = 0 := by omega
    subst h4
    rw [List.range_zero, h5]
    simp
  | succ n ih =>
    intro h
    rw [List.range_succ, List.countP_append]
    by_cases hn : hi ≤ n
    · rw [ih hn]
      have hpn : ¬ p n = true := fun hc => by
        have := ((hp n).1 hc).2; omega
      simp [List.countP_cons, hpn]
    · have hhi : hi = n + 1 := by omega
      by_cases hlo : lo ≤ n
      · rw [countP_range_of_le_hi p lo hi hp n hlo (by omega)]
        have hpn : p n = true := (hp n).2 ⟨hlo, by omega⟩
        simp only [List.countP_cons, List.countP_nil, if_pos hpn]
        omega
      · have hlo2 : lo = n + 1 := by omega
        rw [countP_range_of_le_lo p lo (fun b hb => ((hp b).1 hb).1) n
          (by omega)]
        have hpn : ¬ p n = true := fun hc => by
          have := ((hp n).1 hc).1; omega
        simp only [List.countP_cons, List.countP_nil, if_neg hpn]
        omega

/-- A sum over `List.range n` of a function that vanishes away from a
single index. -/
theorem sum_map_range_single (n : ℕ) (f : ℕ → ℝ) (b0 : ℕ)
    (h0 : ∀ b, b ≠ b0 → f b = 0) :
    ((List.range n).map f).sum = if b0 < n then f b0 else 0 := by
  induction n with
  | zero => simp
  | succ n ih =>
    rw [List.range_succ, List.map_append, List.sum_append, ih]
    by_cases hb : b0 < n
    · rw [if_pos hb, if_pos (by omega)]
      have hfn : f n = 0 := h0 n (by omega)
      simp [hfn]
    · by_cases hb2 : b0 = n
      · subst hb2
        rw [if_neg hb, if_pos (by omega)]
        simp
      · rw [if_neg hb, if_neg (by omega)]
        have hfn : f n = 0 := h0 n (by omega)
        simp [hfn]

/-! ### Structure of the transcript -/

theorem mem_beatList {ghost : Bool} {clen spb total : ℕ} {e : Ev} :
    e ∈ beatList ghost clen spb total ↔
      ∃ b, b < numBeats spb total ∧ e = beatEv ghost clen spb total b := by
  rw [beatList]
  simp only [List.mem_map, List.mem_range]
  constructor
  · rintro ⟨b, hb, he⟩; exact ⟨b, hb, he.symm⟩
  · rintro ⟨b, hb, he⟩; exact ⟨b, hb, he.symm⟩

theorem offsets_beatList (ghost : Bool) (clen spb total : ℕ) :
    offsets (beatList ghost clen spb total) =
      (List.range (numBeats spb total)).map (fun b => b * spb) := by
  rw [offsets, beatList, List.map_map]
  rfl

/-! ### The waveform layer -/

theorem clickCount_eq : clickCount (1 / 20) = 2205 := by
  rw [clickCount, sample_rate, ratTrunc_of_nonneg (by norm_num)]
  norm_num
  rfl

theorem make_click_at_zero (freq : ℝ) (dur : ℚ) :
    make_click freq dur 0 = 0 := by
  rw [make_click]
  norm_num

theorem abs_make_click_le (freq : ℝ) (dur : ℚ) (i : ℕ) :
    |make_click freq dur i| ≤ 1 / 2 := by
  rw [make_click, abs_mul, abs_of_nonneg (by norm_num : (0:ℝ) ≤ 1 / 2)]
  have h := Real.abs_sin_le_one (2 * Real.pi * freq *
    ((i : ℝ) * (dur : ℝ) / ((clickCount dur - 1 : ℕ) : ℝ)))
  nlinarith [abs_nonneg (Real.sin (2 * Real.pi * freq *
    ((i : ℝ) * (dur : ℝ) / ((clickCount dur - 1 : ℕ) : ℝ))))]

theorem abs_clickWave_le (k : Kind) (i : ℕ) : |clickWave k i| ≤ 1 / 2 := by
  rw [clickWave]
  exact abs_make_click_le _ _ _

/-- The sine of a non-integer rational multiple of `π` is non-zero. -/
theorem sin_rat_pi_ne_zero (a b : ℤ) (hb : (0 : ℤ) < b) (hnd : ¬ b ∣ a) :
    Real.sin ((a : ℝ) / (b : ℝ) * Real.pi) ≠ 0 := by
  intro h
  rcases Real.sin_eq_zero_iff.1 h with ⟨n, hn⟩
  have hbne : ((b : ℝ)) ≠ 0 := Int.cast_ne_zero.2 (by omega)
  have h1 : (n : ℝ) = (a : ℝ) / (b : ℝ) :=
    mul_right_cancel₀ Real.pi_ne_zero hn
  have h2 : (n : ℝ) * (b : ℝ) = (a : ℝ) := by
    rw [h1]
    field_simp
  have h3 : n * b = a := by exact_mod_cast h2
  exact hnd ⟨n, by rw [← h3, mul_comm]⟩

/-- The accent click's last sample is exactly zero: the endpoint-inclusive
grid makes the 1200 Hz burst span exactly 60 cycles. -/
theorem make_click_1200_last : make_click 1200 (1 / 20) 2204 = 0 := by
  rw [make_click, clickCount_eq]
  rw [show ((2205 - 1 : ℕ) : ℝ) = 2204 from by norm_num]
  rw [show 2 * Real.pi * 1200 * ((2204 : ℝ) * ((1 / 20 : ℚ) : ℝ) / 2204)
      = ((120 : ℤ) : ℝ) * Real.pi from by push_cast; ring]
  rw [Real.sin_int_mul_pi]
  ring

/-- The spec's formula gives a non-zero value at the same index. -/
theorem synthSpec_1200_last_ne : synthSpecSample 1200 2204 ≠ 0 := by
  rw [synthSpecSample]
  rw [show 2 * Real.pi * 1200 * ((2204 : ℕ) : ℝ) / 44100
      = ((5289600 : ℤ) : ℝ) / ((44100 : ℤ) : ℝ) * Real.pi from by
    push_cast; ring]
  apply mul_ne_zero (by norm_num)
  exact sin_rat_pi_ne_zero 5289600 44100 (by norm_num) (by decide)

theorem clickWave_accent_1 :
    clickWave Kind.accent 1 = 1 / 2 * Real.sin (30 / 551 * Real.pi) := by
  rw [clickWave, Kind.freq, make_click, clickCount_eq]
  rw [show ((2205 - 1 : ℕ) : ℝ) = 2204 from by norm_num]
  rw [show 2 * Real.pi * 1200 * ((1 : ℕ) * ((1 / 20 : ℚ) : ℝ) / 2204)
      = 30 / 551 * Real.pi from by push_cast; ring]

theorem clickWave_normal_1 :
    clickWave Kind.normal 1 = 1 / 2 * Real.sin (20 / 551 * Real.pi) := by
  rw [clickWave, Kind.freq, make_click, clickCount_eq]
  rw [show ((2205 - 1 : ℕ) : ℝ) = 2204 from by norm_num]
  rw [show 2 * Real.pi * 800 * ((1 : ℕ) * ((1 / 20 : ℚ) : ℝ) / 2204)
      = 20 / 551 * Real.pi from by push_cast; ring]

theorem clickWave_normal_1_ne : clickWave Kind.normal 1 ≠ 0 := by
  rw [clickWave_normal_1]
  apply mul_ne_zero (by norm_num)
  rw [show (20 : ℝ) / 551 = ((20 : ℤ) : ℝ) / ((551 : ℤ) : ℝ) from by
    push_cast; ring]
  exact sin_rat_pi_ne_zero 20 551 (by norm_num) (by decide)

/-! ### Numeric interval bounds for the quantization counterexample -/

theorem sinA_bounds :
    (0.170205 : ℝ) ≤ Real.sin (30 / 551 * Real.pi) ∧
      Real.sin (30 / 551 * Real.pi) ≤ 0.170225 := by
  have hπl : (3.141592 : ℝ) < Real.pi := Real.pi_gt_d6
  have hπu : Real.pi < 3.141593 := Real.pi_lt_d6
  set y : ℝ := 15 / 551 * Real.pi with hy
  have hy0 : (0 : ℝ) ≤ y := by rw [hy]; positivity
  have hy1 : (0.0855242 : ℝ) ≤ y := by rw [hy]; nlinarith
  have hy2 : y ≤ (0.0855244 : ℝ) := by rw [hy]; nlinarith
  have habs : |y| ≤ 1 := by rw [abs_of_nonneg hy0]; linarith
  have hs := Real.sin_bound habs
  have hc := Real.cos_bound habs
  rw [abs_of_nonneg hy0] at hs hc
  rw [abs_le] at hs hc
  have h3u : y ^ 3 ≤ (0.0855244 : ℝ) ^ 3 := pow_le_pow_left₀ hy0 hy2 3
  have h3l : (0.0855242 : ℝ) ^ 3 ≤ y ^ 3 :=
    pow_le_pow_left₀ (by norm_num) hy1 3
  have h4u : y ^ 4 ≤ (0.0855244 : ℝ) ^ 4 := pow_le_pow_left₀ hy0 hy2 4
  have h2u : y ^ 2 ≤ (0.0855244 : ℝ) ^ 2 := pow_le_pow_left₀ hy0 hy2 2
  have h2l : (0.0855242 : ℝ) ^ 2 ≤ y ^ 2 :=
    pow_le_pow_left₀ (by norm_num) hy1 2
  have hsl : (0.0854171 : ℝ) ≤ Real.sin y := by nlinarith [hs.1]
  have hsh : Real.sin y ≤ (0.0854230 : ℝ) := by nlinarith [hs.2]
  have hcl : (0.9963400 : ℝ) ≤ Real.cos y := by nlinarith [hc.1]
  have hch : Real.cos y ≤ (0.9963456 : ℝ) := by nlinarith [hc.2]
  have h2y : (30 : ℝ) / 551 * Real.pi = 2 * y := by rw [hy]; ring
  rw [h2y, Real.sin_two_mul]
  have hsin0 : (0 : ℝ) ≤ Real.sin y := by linarith
  have hcos0 : (0 : ℝ) ≤ Real.cos y := by linarith
  rw [mul_assoc]
  constructor
  · have hprod : (0.0854171 : ℝ) * 0.9963400 ≤ Real.sin y * Real.cos y :=
      mul_le_mul hsl hcl (by norm_num) hsin0
    have hnum : (0.170205 : ℝ) ≤ 2 * (0.0854171 * 0.9963400) := by norm_num
    linarith
  · have hprod : Real.sin y * Real.cos y ≤ (0.0854230 : ℝ) * 0.9963456 :=
      mul_le_mul hsh hch hcos0 (by norm_num)
    have hnum : 2 * ((0.0854230 : ℝ) * 0.9963456) ≤ 0.170225 := by norm_num
    linarith

/-- The mixed buffer of the take `(bpm = 120, duration = 1)` at sample
index 1: only the first (accent) click covers that index. -/
theorem mixBuf_E_1 :
    mixBuf [⟨0, 0, 1, .accent, true, true⟩,
      ⟨22050, 1, 1, .normal, true, true⟩] 1 =
      1 / 2 * Real.sin (30 / 551 * Real.pi) := by
  rw [mixBuf]
  simp only [List.map_cons, List.map_nil, List.sum_cons, List.sum_nil]
  rw [if_pos (by refine ⟨?_, by omega, by rw [clickLen_eq]; omega⟩; trivial),
    if_neg (by rintro ⟨-, hc, -⟩; omega)]
  rw [Nat.sub_zero, clickWave_accent_1]
  ring

/-- What the source quantization emits for that sample: truncation gives
2788. -/
theorem pcm_trunc_val :
    np_int16 (1 / 2 * Real.sin (30 / 551 * Real.pi) * 32767) = 2788 := by
  have hb := sinA_bounds
  set s := Real.sin (30 / 551 * Real.pi) with hs
  have h0 : (0 : ℝ) ≤ 1 / 2 * s * 32767 := by nlinarith [hb.1]
  rw [np_int16, truncR, if_pos h0]
  have hfl : ⌊1 / 2 * s * 32767⌋ = 2788 := by
    rw [Int.floor_eq_iff]
    constructor
    · push_cast
      nlinarith [hb.1]
    · push_cast
      nlinarith [hb.2]
  rw [hfl]
  decide

/-- What the spec's quantization demands for that sample: rounding gives
2789. -/
theorem qspec_val :
    quantizeSpec (1 / 2 * Real.sin (30 / 551 * Real.pi)) = 2789 := by
  have hb := sinA_bounds
  set s := Real.sin (30 / 551 * Real.pi) with hs
  rw [quantizeSpec]
  rw [min_eq_left (by nlinarith [hb.2] : 1 / 2 * s ≤ 1)]
  rw [max_eq_right (by nlinarith [hb.1] : (-1 : ℝ) ≤ 1 / 2 * s)]
  rw [round_eq]
  rw [Int.floor_eq_iff]
  constructor
  · push_cast
    nlinarith [hb.1]
  · push_cast
    nlinarith [hb.2]

/-! ### Quantization structure -/

theorem wrap16_eq_self {n : ℤ} (h1 : -32768 ≤ n) (h2 : n ≤ 32767) :
    wrap16 n = n := by
  rw [wrap16]
  omega

theorem truncR_bound_16383 {x : ℝ} (h : |x| ≤ 16383.5) :
    -16383 ≤ truncR x ∧ truncR x ≤ 16383 := by
  rw [abs_le] at h
  rw [truncR]
  split
  case isTrue hx =>
    have hl : (0 : ℤ) ≤ ⌊x⌋ := Int.le_floor.2 (by push_cast; linarith)
    have hu : ⌊x⌋ < 16384 := Int.floor_lt.2 (by push_cast; linarith)
    omega
  case isFalse hx =>
    have hl : (0 : ℤ) ≤ ⌊-x⌋ := Int.le_floor.2 (by push_cast; linarith)
    have hu : ⌊-x⌋ < 16384 := Int.floor_lt.2 (by push_cast; linarith)
    omega

/-- When a beat lasts at least as long as a click, the clicks written into
the buffer never overlap, so each buffer sample is covered by at most one
click and stays within the click amplitude. -/
theorem mixBuf_beatList_abs_le (ghost : Bool) (spb total : ℕ)
    (hclen : clickLen ≤ spb) (j : ℕ) :
    |mixBuf (beatList ghost clickLen spb total) j| ≤ 1 / 2 := by
  have hcl0 : 0 < clickLen := by rw [clickLen_eq]; omega
  have hspb : 0 < spb := by omega
  rw [mixBuf, beatList, List.map_map]
  rw [sum_map_range_single (numBeats spb total)
    ((fun e : Ev =>
      if e.written = true ∧ e.sampleOffset ≤ j ∧
          j < e.sampleOffset + clickLen
      then clickWave e.kind (j - e.sampleOffset) else 0) ∘
      beatEv ghost clickLen spb total) (j / spb) ?hz]
  case hz =>
    intro b hb
    dsimp only [Function.comp]
    rw [if_neg]
    rintro ⟨-, h1, h2⟩
    simp only [beatEv] at h1 h2
    have hx : j < (b + 1) * spb := by
      have hy : (b + 1) * spb = b * spb + spb := by ring
      omega
    exact hb (Nat.div_eq_of_lt_le h1 hx).symm
  split
  · dsimp only [Function.comp]
    split
    · exact abs_clickWave_le _ _
    · norm_num
  · norm_num

theorem sched_120_2_true : schedule 120 2 true = .ok
    [⟨0, 0, 1, .accent, true, true⟩, ⟨22050, 1, 1, .normal, true, true⟩,
     ⟨44100, 2, 1, .normal, true, true⟩,
     ⟨66150, 3, 1, .normal, true, true⟩] := by
  rw [schedule,
    if_neg (by
      rw [totalSamplesZ, sample_rate, ratTrunc_of_nonneg (by norm_num)]
      norm_num),
    if_neg (by norm_num), if_neg (by rw [spbZ_120]; omega)]
  rw [spbNat, spbZ_120, totalNat_2, clickLen_eq]
  decide

theorem sched_1200_1_true :
    schedule 1200 1 true = .ok (beatList true 2205 2205 44100) := by
  have h := @schedule_ok 1200 1 true
    (totalZ_nonneg (by norm_num)) (by norm_num) (by rw [spbZ_1200]; omega)
  rw [h, spbNat, spbZ_1200, totalNat_1, clickLen_eq]
  rfl

/-! ### The claims -/

/-- C1 (counterexample): the claim "whenever `bpm ≤ 0` or
`durationSeconds ≤ 0` the call fails with an error and produces no
result" is false: `generate_metronome(120, 0)` succeeds and returns an
(empty) take.  (`subdivision` is not even a parameter of the source
function; it is hard-coded to 4.) -/
theorem claim_C1_counterexample :
    ¬ (∀ (bpm dur : ℚ) (ghost : Bool), (bpm ≤ 0 ∨ dur ≤ 0) →
        ∀ evs, schedule bpm dur ghost ≠ PyResult.ok evs) := by
  intro h
  exact h 120 0 false (Or.inr le_rfl) [] sched_120_0

/-- C1 (amended): `generate_metronome` performs no parameter validation
at all.  With `durationSeconds = 0` (more generally, a zero-length
buffer) the call succeeds and returns an empty take; with `bpm = 0` it
raises `ZeroDivisionError` — not an `InvalidParameter` error; with
`bpm < 0` and a non-empty buffer the scheduling loop never terminates;
with a negative buffer length `np.linspace` raises `ValueError`. -/
theorem claim_C1_amended :
    (∀ (bpm : ℚ) (ghost : Bool), bpm ≠ 0 →
      schedule bpm 0 ghost = PyResult.ok []) ∧
    (∀ (dur : ℚ) (ghost : Bool), 0 ≤ dur →
      schedule 0 dur ghost = PyResult.exn "ZeroDivisionError") ∧
    (∀ (bpm dur : ℚ) (ghost : Bool), bpm < 0 → 0 < totalSamplesZ dur →
      schedule bpm dur ghost = PyResult.diverge) ∧
    (∀ (bpm dur : ℚ) (ghost : Bool), totalSamplesZ dur < 0 →
      schedule bpm dur ghost = PyResult.exn "ValueError") := by
  have ht0 : totalSamplesZ 0 = 0 := by
    rw [totalSamplesZ, sample_rate, ratTrunc_of_nonneg (by norm_num)]
    norm_num
  refine ⟨?_, ?_, ?_, ?_⟩
  · intro bpm ghost hb
    have htn : totalNat 0 = 0 := by rw [totalNat, ht0]; rfl
    rw [schedule, if_neg (by omega), if_neg hb,
      if_neg (by rw [htn]; omega), htn]
    simp only [loopGo, if_neg (lt_irrefl 0)]
  · intro dur ghost hd
    rw [schedule, if_neg (by have := totalZ_nonneg hd; omega), if_pos rfl]
  · intro bpm dur ghost hb ht
    rw [schedule, if_neg (by omega),
      if_neg (by rintro rfl; exact lt_irrefl 0 hb),
      if_pos ⟨by rw [totalNat]; omega, spbZ_nonpos hb⟩]
  · intro bpm dur ghost hd
    rw [schedule, if_pos hd]

/-- C1 (witness): the amended claim instantiated at `bpm = 120`,
`durationSeconds = 0`. -/
theorem claim_C1_witness : schedule 120 0 true = PyResult.ok [] :=
  claim_C1_amended.1 120 true (by norm_num)

/-- C3 (counterexample): the source click is not sampled at
`i / sampleRate`.  At the accent preset (1200 Hz) and index 2204 (the
burst's last sample) the source sample is exactly 0 — `np.linspace`
includes the endpoint, so the burst spans exactly 60 whole cycles —
while the spec's formula `0.5 * sin(2π·1200·i/44100)` is non-zero
there. -/
theorem claim_C3_counterexample :
    make_click 1200 (1 / 20) 2204 = 0 ∧
      synthSpecSample 1200 2204 ≠ make_click 1200 (1 / 20) 2204 := by
  refine ⟨make_click_1200_last, ?_⟩
  rw [make_click_1200_last]
  exact synthSpec_1200_last_ne

/-- C3 (amended): the click is a pure sine burst of amplitude 0.5 and
phase 0, with `int(sampleRate * durationSeconds)` samples, but sampled
on np.linspace's endpoint-inclusive grid: for the 0.05 s presets the
burst has 2205 samples and sample `i` equals
`0.5 * sin(2π · f · i / 44080)` (sample spacing `0.05/2204 = 1/44080` s,
not `1/44100`); every sample lies in `[-0.5, 0.5]`; the presets used by
the scheduler are accent = 1200 Hz and normal = 800 Hz, both 0.05 s. -/
theorem claim_C3_amended :
    clickCount (1 / 20) = 2205 ∧
    (∀ i : ℕ, make_click 1200 (1 / 20) i
        = 1 / 2 * Real.sin (2 * Real.pi * (1200 * i / 44080))) ∧
    (∀ i : ℕ, make_click 800 (1 / 20) i
        = 1 / 2 * Real.sin (2 * Real.pi * (800 * i / 44080))) ∧
    (∀ (freq : ℝ) (dur : ℚ) (i : ℕ),
      make_click freq dur i ∈ Set.Icc (-(1 / 2) : ℝ) (1 / 2)) ∧
    (∀ (freq : ℝ) (dur : ℚ), make_click freq dur 0 = 0) ∧
    clickWave Kind.accent = make_click 1200 (1 / 20) ∧
    clickWave Kind.normal = make_click 800 (1 / 20) := by
  refine ⟨clickCount_eq, ?_, ?_, ?_, ?_, ?_, ?_⟩
  · intro i
    rw [make_click, clickCount_eq]
    rw [show ((2205 - 1 : ℕ) : ℝ) = 2204 from by norm_num]
    rw [show 2 * Real.pi * 1200 * ((i : ℕ) * ((1 / 20 : ℚ) : ℝ) / 2204)
        = 2 * Real.pi * (1200 * i / 44080) from by push_cast; ring]
  · intro i
    rw [make_click, clickCount_eq]
    rw [show ((2205 - 1 : ℕ) : ℝ) = 2204 from by norm_num]
    rw [show 2 * Real.pi * 800 * ((i : ℕ) * ((1 / 20 : ℚ) : ℝ) / 2204)
        = 2 * Real.pi * (800 * i / 44080) from by push_cast; ring]
  · intro freq dur i
    rw [Set.mem_Icc]
    have h := abs_make_click_le freq dur i
    rw [abs_le] at h
    exact h
  · intro freq dur
    exact make_click_at_zero freq dur
  · funext i
    rw [clickWave, Kind.freq]
  · funext i
    rw [clickWave, Kind.freq]

/-- C4 (counterexample): the emitted PCM is not
`round(clamp(sample, -1, 1) * 32767)`.  For the take
`(bpm = 120, duration = 1 s, ghost off)`, buffer sample 1 is
`0.5·sin(30π/551) ≈ 0.17021`; the spec formula rounds
`≈ 2788.73` to 2789, while the source's `np.int16` conversion truncates
it to 2788. -/
theorem claim_C4_counterexample :
    schedule 120 1 false = PyResult.ok
      [⟨0, 0, 1, .accent, true, true⟩,
       ⟨22050, 1, 1, .normal, true, true⟩] ∧
    quantizeSpec (mixBuf [⟨0, 0, 1, .accent, true, true⟩,
        ⟨22050, 1, 1, .normal, true, true⟩] 1) = 2789 ∧
    pcmSample [⟨0, 0, 1, .accent, true, true⟩,
        ⟨22050, 1, 1, .normal, true, true⟩] 1 = 2788 := by
  refine ⟨sched_120_1, ?_, ?_⟩
  · rw [mixBuf_E_1]
    exact qspec_val
  · rw [pcmSample, mixBuf_E_1]
    exact pcm_trunc_val

/-- C4 (amended): the source quantizes by truncation toward zero with
16-bit wraparound (`np.int16(sample * 32767)`), with no clamp and no
rounding.  Whenever clicks cannot overlap (`clickLen ≤ samples_per_beat`,
i.e. `bpm ≤ 1200`, true throughout the practical range 60–160), every
mixed sample stays in `[-0.5, 0.5]`, so no wraparound occurs and the
emitted value is exactly the truncation of `sample * 32767`, within
`[-16383, 16383]`. -/
theorem claim_C4_amended :
    ∀ (bpm dur : ℚ) (ghost : Bool) (evs : List Ev),
      schedule bpm dur ghost = PyResult.ok evs →
      clickLen ≤ spbNat bpm →
      ∀ j : ℕ,
        |mixBuf evs j| ≤ 1 / 2 ∧
        pcmSample evs j = truncR (mixBuf evs j * 32767) ∧
        -16383 ≤ pcmSample evs j ∧ pcmSample evs j ≤ 16383 := by
  intro bpm dur ghost evs hok hclen j
  obtain ⟨hevs, -⟩ := schedule_ok_inv hok
  subst hevs
  have habs := mixBuf_beatList_abs_le ghost (spbNat bpm) (totalNat dur)
    hclen j
  refine ⟨habs, ?_, ?_⟩
  · rw [pcmSample, np_int16]
    have hb := truncR_bound_16383 (show |mixBuf
        (beatList ghost clickLen (spbNat bpm) (totalNat dur)) j * 32767|
          ≤ 16383.5 by
      rw [abs_mul, abs_of_nonneg (by norm_num : (0:ℝ) ≤ 32767)]
      nlinarith [habs])
    exact wrap16_eq_self (by omega) (by omega)
  · rw [pcmSample, np_int16]
    have hb := truncR_bound_16383 (show |mixBuf
        (beatList ghost clickLen (spbNat bpm) (totalNat dur)) j * 32767|
          ≤ 16383.5 by
      rw [abs_mul, abs_of_nonneg (by norm_num : (0:ℝ) ≤ 32767)]
      nlinarith [habs])
    rw [wrap16_eq_self (by omega) (by omega)]
    omega

/-- C4 (witness): the amended claim instantiated at
`(bpm = 120, duration = 1 s)` and sample index 1. -/
theorem claim_C4_witness :
    |mixBuf [⟨0, 0, 1, .accent, true, true⟩,
      ⟨22050, 1, 1, .normal, true, true⟩] 1| ≤ 1 / 2 ∧
    pcmSample [⟨0, 0, 1, .accent, true, true⟩,
        ⟨22050, 1, 1, .normal, true, true⟩] 1
      = truncR (mixBuf [⟨0, 0, 1, .accent, true, true⟩,
        ⟨22050, 1, 1, .normal, true, true⟩] 1 * 32767) ∧
    -16383 ≤ pcmSample [⟨0, 0, 1, .accent, true, true⟩,
        ⟨22050, 1, 1, .normal, true, true⟩] 1 ∧
    pcmSample [⟨0, 0, 1, .accent, true, true⟩,
        ⟨22050, 1, 1, .normal, true, true⟩] 1 ≤ 16383 :=
  claim_C4_amended 120 1 false _ sched_120_1
    (by rw [clickLen_eq, spbNat_120]; omega) 1

/-- C6: every scheduled (non-silent) event at beat index `b` has kind
Accent iff `b mod 4 == 0` (subdivision is hard-coded to 4), and the
accent tone is 1200 Hz while every other beat gets the 800 Hz tone. -/
theorem claim_C6 :
    ∀ (bpm dur : ℚ) (ghost : Bool) (evs : List Ev),
      schedule bpm dur ghost = PyResult.ok evs →
      ∀ e ∈ evs, e.scheduled = true →
        ((e.kind = Kind.accent ↔ e.beatIdx % 4 = 0) ∧
          Kind.freq e.kind
            = if e.beatIdx % 4 = 0 then 1200 else 800) := by
  intro bpm dur ghost evs hok e he hsch
  obtain ⟨hevs, -⟩ := schedule_ok_inv hok
  subst hevs
  rcases mem_beatList.1 he with ⟨b, hb, rfl⟩
  by_cases h4 : b % 4 = 0
  · constructor
    · simp [beatEv, h4]
    · simp [beatEv, h4, Kind.freq]
  · constructor
    · simp [beatEv, h4]
    · simp [beatEv, h4, Kind.freq]

/-- C6 (witness): instantiated at the take `(120, 2 s)` and its first
event (beat 0, accent). -/
theorem claim_C6_witness :
    (((⟨0, 0, 1, .accent, true, true⟩ : Ev).kind = Kind.accent ↔
        (⟨0, 0, 1, .accent, true, true⟩ : Ev).beatIdx % 4 = 0) ∧
      Kind.freq (⟨0, 0, 1, .accent, true, true⟩ : Ev).kind
        = if (⟨0, 0, 1, .accent, true, true⟩ : Ev).beatIdx % 4 = 0
          then 1200 else 800) :=
  claim_C6 120 2 false _ sched_120_2 _ (List.mem_cons_self _ _) rfl

/-- C7 (counterexample): the renderer does not clip boundary clicks — it
drops them whole.  At `bpm = 63`, `duration = 1 s` the beat at offset
42000 is scheduled, its tail 42000 + 2205 exceeds the 44100-sample
buffer, and a clipping renderer would write
`min(clickLen, 44100 − 42000) = 2100` samples — in particular a
non-zero value at index 42001 — but the source buffer is exactly 0
there: the click was never written. -/
theorem claim_C7_counterexample :
    schedule 63 1 false = PyResult.ok
      [⟨0, 0, 1, .accent, true, true⟩,
       ⟨42000, 1, 1, .normal, true, false⟩] ∧
    min clickLen (44100 - 42000) = 2100 ∧
    mixBuf [⟨0, 0, 1, .accent, true, true⟩,
      ⟨42000, 1, 1, .normal, true, false⟩] 42001 = 0 ∧
    mixBufSpec [⟨0, 0, 1, .accent, true, true⟩,
      ⟨42000, 1, 1, .normal, true, false⟩] 44100 42001 ≠ 0 := by
  refine ⟨sched_63_1, by rw [clickLen_eq]; omega, ?_, ?_⟩
  · rw [mixBuf]
    simp only [List.map_cons, List.map_nil, List.sum_cons, List.sum_nil]
    rw [if_neg (by rintro ⟨-, -, h2⟩; rw [clickLen_eq] at h2; omega),
      if_neg (by rintro ⟨hw, -, -⟩; simp at hw)]
    norm_num
  · rw [mixBufSpec]
    simp only [List.map_cons, List.map_nil, List.sum_cons, List.sum_nil]
    rw [if_neg (by rintro ⟨-, -, h2⟩; rw [clickLen_eq] at h2; omega),
      if_pos (by
        refine ⟨?_, by omega, by rw [clickLen_eq]; omega⟩
        trivial)]
    rw [show (42001 - 42000 : ℕ) = 1 from rfl]
    simpa using clickWave_normal_1_ne

/-- C7 (amended): no click write ever reaches past (or even up to) the
buffer end — every written event satisfies
`sampleOffset + clickLen < totalSamples`, so the buffer is untouched at
and beyond `totalSamples` — but an event whose click tail would reach
`totalSamples` is not clipped: it is dropped entirely (zero samples
written), which is why it appears in the transcript as scheduled yet not
written. -/
theorem claim_C7_amended :
    ∀ (bpm dur : ℚ) (ghost : Bool) (evs : List Ev),
      schedule bpm dur ghost = PyResult.ok evs →
      (∀ e ∈ evs, e.written = true →
        e.sampleOffset + clickLen < totalNat dur) ∧
      (∀ e ∈ evs, e.scheduled = true → e.written = false →
        totalNat dur ≤ e.sampleOffset + clickLen) ∧
      (∀ j : ℕ, totalNat dur ≤ j → mixBuf evs j = 0) := by
  intro bpm dur ghost evs hok
  obtain ⟨hevs, -⟩ := schedule_ok_inv hok
  subst hevs
  have hwr : ∀ e ∈ beatList ghost clickLen (spbNat bpm) (totalNat dur),
      e.written = true → e.sampleOffset + clickLen < totalNat dur := by
    intro e he hw
    rcases mem_beatList.1 he with ⟨b, hb, rfl⟩
    simp only [beatEv, Bool.and_eq_true, decide_eq_true_eq] at hw
    exact hw.2
  refine ⟨hwr, ?_, ?_⟩
  · intro e he hsch hw
    rcases mem_beatList.1 he with ⟨b, hb, rfl⟩
    simp only [beatEv] at hsch hw ⊢
    rw [hsch, Bool.true_and, decide_eq_false_iff_not] at hw
    omega
  · intro j hj
    rw [mixBuf]
    apply List.sum_eq_zero
    intro x hx
    rcases List.mem_map.1 hx with ⟨e, he, rfl⟩
    rw [if_neg]
    rintro ⟨hw, -, h2⟩
    have := hwr e he hw
    omega

/-- C7 (witness): the amended claim instantiated at `(63, 1 s)` and the
first out-of-buffer index 44100. -/
theorem claim_C7_witness :
    mixBuf [⟨0, 0, 1, .accent, true, true⟩,
      ⟨42000, 1, 1, .normal, true, false⟩] 44100 = 0 :=
  (claim_C7_amended 63 1 false _ sched_63_1).2.2 44100 (by rw [totalNat_1])

/-- C8: for every positive `bpm ≤ sampleRate * 60 = 2646000`,
`samples_per_beat = ⌊44100 * 60 / bpm⌋ ≥ 1`, so `current_sample` strictly
increases each iteration and the scheduling loop terminates for every
non-negative duration: the call returns normally. -/
theorem claim_C8 :
    ∀ bpm : ℚ, 0 < bpm → bpm ≤ 2646000 →
      1 ≤ samplesPerBeatZ bpm ∧
      ∀ dur : ℚ, 0 ≤ dur → ∀ ghost : Bool,
        ∃ evs, schedule bpm dur ghost = PyResult.ok evs := by
  intro bpm h0 h1
  have hs := one_le_spbZ h0 h1
  exact ⟨hs, fun dur hd ghost =>
    ⟨_, schedule_ok ghost (totalZ_nonneg hd) (ne_of_gt h0) hs⟩⟩

/-- C8 (witness): instantiated at `bpm = 120`, `duration = 2 s`. -/
theorem claim_C8_witness :
    1 ≤ samplesPerBeatZ 120 ∧
      ∃ evs, schedule 120 2 false = PyResult.ok evs :=
  ⟨(claim_C8 120 (by norm_num) (by norm_num)).1,
   (claim_C8 120 (by norm_num) (by norm_num)).2 2 (by norm_num) false⟩

/-- C10 (counterexample): buffer production is not guaranteed for every
positive bpm: at `bpm = 2646001` (positive) and `duration = 1`,
`samples_per_beat = int(44100 * 60 / bpm) = 0`, so the loop never
advances and the call diverges — no buffer of any length is produced. -/
theorem claim_C10_counterexample :
    schedule 2646001 1 false = PyResult.diverge ∧
    ¬ (∀ (bpm dur : ℚ), 0 < bpm → 0 < dur → ∀ ghost : Bool,
        ∃ evs, schedule bpm dur ghost = PyResult.ok evs ∧
          (pcmList evs (totalNat dur)).length
            = (totalSamplesZ dur).toNat) := by
  refine ⟨sched_2646001_1, ?_⟩
  intro h
  rcases h 2646001 1 (by norm_num) (by norm_num) false with ⟨evs, heq, -⟩
  rw [sched_2646001_1] at heq
  exact PyResult.noConfusion heq

/-- C10 (amended): for every positive `bpm ≤ 2646000` and non-negative
duration, and for both ghost-mode settings, the call succeeds and the
rendered PCM payload has exactly `int(44100 * durationSeconds)` samples;
ghost mode changes neither the event offsets nor the number of loop
iterations — only which clicks are muted. -/
theorem claim_C10_amended :
    ∀ (bpm dur : ℚ), 0 < bpm → bpm ≤ 2646000 → 0 ≤ dur →
      ∀ ghost : Bool,
        ∃ evs, schedule bpm dur ghost = PyResult.ok evs ∧
          (pcmList evs (totalNat dur)).length
            = (totalSamplesZ dur).toNat ∧
          offsets (evsOf bpm dur true) = offsets (evsOf bpm dur false) ∧
          (evsOf bpm dur true).length = (evsOf bpm dur false).length := by
  intro bpm dur h0 h1 hd ghost
  have hs := one_le_spbZ h0 h1
  have hokg := @schedule_ok bpm dur ghost (totalZ_nonneg hd)
    (ne_of_gt h0) hs
  have hokT := @schedule_ok bpm dur true (totalZ_nonneg hd)
    (ne_of_gt h0) hs
  have hokF := @schedule_ok bpm dur false (totalZ_nonneg hd)
    (ne_of_gt h0) hs
  refine ⟨_, hokg, ?_, ?_, ?_⟩
  · rw [pcmList, List.length_map, List.length_range, totalNat]
  · simp only [evsOf, hokT, hokF]
    rw [offsets_beatList, offsets_beatList]
  · simp only [evsOf, hokT, hokF]
    rw [beatList, beatList, List.length_map, List.length_map]

/-- C10 (witness): instantiated at `bpm = 120`, `duration = 2 s`,
ghost mode on. -/
theorem claim_C10_witness :
    ∃ evs, schedule 120 2 true = PyResult.ok evs ∧
      (pcmList evs (totalNat 2)).length = (totalSamplesZ 2).toNat ∧
      offsets (evsOf 120 2 true) = offsets (evsOf 120 2 false) ∧
      (evsOf 120 2 true).length = (evsOf 120 2 false).length :=
  claim_C10_amended 120 2 (by norm_num) (by norm_num) (by norm_num) true

/-- C2 (counterexample): with ghost mode on and subdivision 4, at
`bpm = 1200` (`samples_per_beat = 2205 = clickLen`) and
`duration = 1 s`, bar 5 lies fully inside the take
(`4 · 5 · samples_per_beat = 44100 = totalSamples`) and is not a ghost
bar (`5 mod 4 ≠ 0`), yet it contributes only 3 audible click events, not
`subdivision = 4`: its last click's tail would reach the buffer end and
the click is dropped. -/
theorem claim_C2_counterexample :
    4 * 5 * spbNat 1200 ≤ totalNat 1 ∧ 5 % 4 ≠ 0 ∧
    ((evsOf 1200 1 true).filter
      (fun e => e.written && e.barCount == 5)).length = 3 := by
  refine ⟨by rw [spbNat, spbZ_1200, totalNat_1]; decide, by omega, ?_⟩
  simp only [evsOf, sched_1200_1_true]
  decide

/-- C2 (amended): with ghost mode on (subdivision hard-coded to 4) and
bars numbered from 1 by the loop's counter: every audible event lies in
a bar whose number is not a multiple of 4 (so ghost bars contribute zero
audible clicks); every other bar that lies fully inside the take
contributes exactly 4 audible events, provided a click fits strictly
within a beat (`clickLen < samples_per_beat`, i.e. `bpm ≤ 1199`, which
holds throughout the practical range 60–160) — without that proviso the
take's last click can be dropped (see the counterexample); and every
event's offset is `beatIdx * samples_per_beat`, so time keeps advancing
at the same cadence through silent bars. -/
theorem claim_C2_amended :
    ∀ (bpm dur : ℚ) (evs : List Ev),
      schedule bpm dur true = PyResult.ok evs →
      clickLen < spbNat bpm →
      (∀ e ∈ evs, e.written = true → e.barCount % 4 ≠ 0) ∧
      (∀ B : ℕ, 1 ≤ B → B % 4 ≠ 0 →
        4 * B * spbNat bpm ≤ totalNat dur →
        evs.countP (fun e => e.written && e.barCount == B) = 4) ∧
      (∀ e ∈ evs, e.sampleOffset = e.beatIdx * spbNat bpm) := by
  intro bpm dur evs hok hclen
  obtain ⟨hevs, -⟩ := schedule_ok_inv hok
  subst hevs
  refine ⟨?_, ?_, ?_⟩
  · intro e he hw
    rcases mem_beatList.1 he with ⟨b, hb, rfl⟩
    simp only [beatEv] at hw ⊢
    intro hbar
    simp [hbar] at hw
  · intro B hB1 hB4 hspan
    have hspb : 0 < spbNat bpm := by
      have : 0 < clickLen := by rw [clickLen_eq]; omega
      omega
    have hx : 4 * B * spbNat bpm
        = (4 * B - 1) * spbNat bpm + spbNat bpm := by
      have hz := Nat.succ_mul (4 * B - 1) (spbNat bpm)
      have hy : 4 * B - 1 + 1 = 4 * B := by omega
      rw [Nat.succ_eq_add_one, hy] at hz
      exact hz
    have hlast : (4 * B - 1) * spbNat bpm + clickLen < totalNat dur := by
      omega
    have hnb : 4 * B ≤ numBeats (spbNat bpm) (totalNat dur) := by
      have hlt : (4 * B - 1) * spbNat bpm < totalNat dur := by omega
      have := (lt_numBeats hspb (4 * B - 1)).2 hlt
      omega
    have hp : ∀ b : ℕ,
        (((fun e => e.written && e.barCount == B) ∘
          beatEv true clickLen (spbNat bpm) (totalNat dur)) b = true)
          ↔ (4 * (B - 1) ≤ b ∧ b < 4 * B) := by
      intro b
      simp only [Function.comp, beatEv, Bool.and_eq_true,
        Bool.not_eq_true', Bool.true_and, beq_iff_eq,
        beq_eq_false_iff_ne, decide_eq_true_eq, ne_eq]
      constructor
      · rintro ⟨⟨-, -⟩, hbar⟩
        omega
      · rintro ⟨hlo, hhi⟩
        have hbar : b / 4 + 1 = B := by omega
        refine ⟨⟨by omega, ?_⟩, hbar⟩
        have hble : b ≤ 4 * B - 1 := by omega
        have h1 : b * spbNat bpm ≤ (4 * B - 1) * spbNat bpm :=
          Nat.mul_le_mul_right _ hble
        omega
    rw [beatList, List.countP_map,
      countP_range_interval _ (4 * (B - 1)) (4 * B) (by omega) hp _ hnb]
    omega
  · intro e he
    rcases mem_beatList.1 he with ⟨b, hb, rfl⟩
    rfl

/-- C2 (witness): the amended claim instantiated at
`(bpm = 120, duration = 2 s, ghost on)`, bar 1 (fully inside, not a
ghost bar): exactly 4 audible events. -/
theorem claim_C2_witness :
    ([⟨0, 0, 1, .accent, true, true⟩, ⟨22050, 1, 1, .normal, true, true⟩,
      ⟨44100, 2, 1, .normal, true, true⟩,
      ⟨66150, 3, 1, .normal, true, true⟩] : List Ev).countP
        (fun e => e.written && e.barCount == 1) = 4 :=
  (claim_C2_amended 120 2 _ sched_120_2_true
    (by rw [clickLen_eq, spbNat_120]; omega)).2.1 1 (by omega) (by omega)
    (by rw [spbNat_120, totalNat_2])

/-- C5: for every bpm in [60, 160] with ghost mode off, the scheduled
offsets are monotone, consecutive offsets differ by exactly
`samples_per_beat = ⌊2646000 / bpm⌋`, and scheduling starts at offset 0;
concretely at `(bpm = 120, duration = 2 s)` the four events sit at
offsets [0, 22050, 44100, 66150] with kinds
[accent, normal, normal, normal]. -/
theorem claim_C5 :
    (∀ (bpm dur : ℚ) (evs : List Ev), 60 ≤ bpm → bpm ≤ 160 →
      schedule bpm dur false = PyResult.ok evs →
      samplesPerBeatZ bpm = ⌊(2646000 : ℚ) / bpm⌋ ∧
      (offsets evs).Pairwise (· ≤ ·) ∧
      (∀ i : ℕ, ∀ hi1 : i + 1 < (offsets evs).length,
        (offsets evs).get ⟨i + 1, hi1⟩
          = (offsets evs).get ⟨i, Nat.lt_of_succ_lt hi1⟩ + spbNat bpm) ∧
      ∀ hne : 0 < (offsets evs).length, (offsets evs).get ⟨0, hne⟩ = 0) ∧
    schedule 120 2 false = PyResult.ok
      [⟨0, 0, 1, .accent, true, true⟩, ⟨22050, 1, 1, .normal, true, true⟩,
       ⟨44100, 2, 1, .normal, true, true⟩,
       ⟨66150, 3, 1, .normal, true, true⟩] := by
  refine ⟨?_, sched_120_2⟩
  intro bpm dur evs h60 h160 hok
  have h0 : (0 : ℚ) < bpm := by linarith
  obtain ⟨hevs, -⟩ := schedule_ok_inv hok
  subst hevs
  rw [offsets_beatList]
  refine ⟨spbNat_eq_floor h0, ?_, ?_, ?_⟩
  · exact List.Pairwise.map _
      (fun a b hab => Nat.mul_le_mul_right _ (le_of_lt hab))
      (List.pairwise_lt_range _)
  · intro i hi1
    simp only [List.get_eq_getElem, List.getElem_map, List.getElem_range]
    ring
  · intro hne
    simp only [List.get_eq_getElem, List.getElem_map, List.getElem_range]
    exact Nat.zero_mul _

/-- C5 (witness): instantiated at `(120, 2 s)`: the second offset equals
the first plus `samples_per_beat`. -/
theorem claim_C5_witness :
    (offsets [⟨0, 0, 1, .accent, true, true⟩,
      ⟨22050, 1, 1, .normal, true, true⟩,
      ⟨44100, 2, 1, .normal, true, true⟩,
      ⟨66150, 3, 1, .normal, true, true⟩]).get ⟨1, by decide⟩
    = (offsets [⟨0, 0, 1, .accent, true, true⟩,
      ⟨22050, 1, 1, .normal, true, true⟩,
      ⟨44100, 2, 1, .normal, true, true⟩,
      ⟨66150, 3, 1, .normal, true, true⟩]).get ⟨0, by decide⟩
        + spbNat 120 :=
  (claim_C5.1 120 2 _ (by norm_num) (by norm_num) sched_120_2).2.2.1 0
    (by decide)

theorem appRun_append (s : AppState) (l1 l2 : List AppOp) :
    appRun s (l1 ++ l2)
      = ((appRun (appRun s l1).1 l2).1,
         (appRun s l1).2 ++ (appRun (appRun s l1).1 l2).2) := by
  induction l1 generalizing s with
  | nil => simp [appRun]
  | cons op ops ih =>
    simp only [List.cons_append, appRun, List.append_eq]
    rw [ih]
    cases h : (appStep s op).2 <;> simp [h]

/-- C9: rendering is deterministic and idempotent.  Generating a take
leaves the session state unchanged; running any operation sequence and
then generating the same TakeSpec twice appends two identical outputs,
each equal to the pure `schedule` value of that TakeSpec; and the output
of a generate call is independent of the starting state and of any
preceding operations (including practice-log writes). -/
theorem claim_C9 :
    ∀ (s : AppState) (ops : List AppOp) (bpm dur : ℚ) (ghost : Bool),
      (appStep s (AppOp.gen bpm dur ghost)).1 = s ∧
      (appRun s
        (ops ++ [AppOp.gen bpm dur ghost, AppOp.gen bpm dur ghost])).2
        = (appRun s ops).2
            ++ [schedule bpm dur ghost, schedule bpm dur ghost] ∧
      ∀ (s2 : AppState) (ops2 : List AppOp),
        (appRun s (ops ++ [AppOp.gen bpm dur ghost])).2.getLast?
          = (appRun s2 (ops2 ++ [AppOp.gen bpm dur ghost])).2.getLast? := by
  intro s ops bpm dur ghost
  have hgg : ∀ st : AppState,
      appRun st [AppOp.gen bpm dur ghost, AppOp.gen bpm dur ghost]
        = (st, [schedule bpm dur ghost, schedule bpm dur ghost]) :=
    fun st => rfl
  have hg : ∀ st : AppState,
      appRun st [AppOp.gen bpm dur ghost]
        = (st, [schedule bpm dur ghost]) := fun st => rfl
  refine ⟨rfl, ?_, ?_⟩
  · rw [appRun_append, hgg]
  · intro s2 ops2
    rw [appRun_append, appRun_append, hg, hg,
      List.getLast?_concat, List.getLast?_concat]

end RapTrainer
